import Mathlib

/-!
Verification of the TPFA flow solver and permeability-field generator of
the compgeo lab scripts (`lab/lab10/solve_problem.py` and
`lab/lab99/solve_problem.py`).

The glue code of the two scripts is embedded over exact rational
arithmetic.  The external TPFA discretization (delegated by the scripts
to the finite-volume library) is modelled from the spec on the uniform
`n x n` Cartesian grid of the unit square: the flux across a face is a
transmissibility times a two-point pressure difference, where the
transmissibility of a face is the distance-weighted harmonic mean of the
`k * area / dist` half-contributions of its sides (a boundary face keeps
the single cell half-contribution, the prescribed Dirichlet value
standing in for the missing neighbor pressure), and every cell equation
is conservation of the outward fluxes.  On the uniform grid with mesh
size `h = 1/n` and uniform conductivity `k`, the internal-face
transmissibility is `k` and the boundary-face transmissibility is `2k`.
-/

namespace CompGeo

/-- Boundary-condition profile of both scripts: `bc_val = 1 - sd.face_centers[1]`,
the prescribed Dirichlet value at a face with center ordinate `y`. -/
def bcProfile (y : ℚ) : ℚ := 1 - y

/-- Ordinate of the center of any cell in row `j` of the uniform `n x n`
grid of the unit square: `(j + 1/2) / n`. -/
def ycen (n j : ℕ) : ℚ := ((j : ℚ) + 1/2) / (n : ℚ)

/-- The analytic linear field `p(x, y) = 1 - y` sampled at the cell centers. -/
def linP (n : ℕ) (_i j : ℕ) : ℚ := 1 - ycen n j

/-- Outward TPFA flux of cell `(i, j)` through its left face: a boundary
face (`i = 0`, transmissibility `2k`, Dirichlet value at the face center,
whose ordinate is the cell-center ordinate) or an internal face
(transmissibility `k`, two-point difference with the left neighbor). -/
def hTermL (n : ℕ) (k : ℚ) (p : ℕ → ℕ → ℚ) (i j : ℕ) : ℚ :=
  if i = 0 then 2 * k * (p i j - bcProfile (ycen n j)) else k * (p i j - p (i - 1) j)

/-- Outward TPFA flux of cell `(i, j)` through its right face. -/
def hTermR (n : ℕ) (k : ℚ) (p : ℕ → ℕ → ℚ) (i j : ℕ) : ℚ :=
  if i = n - 1 then 2 * k * (p i j - bcProfile (ycen n j)) else k * (p i j - p (i + 1) j)

/-- Outward TPFA flux of cell `(i, j)` through its bottom face; the bottom
boundary faces sit at `y = 0`, where the profile prescribes the value `1`. -/
def vTermD (n : ℕ) (k : ℚ) (p : ℕ → ℕ → ℚ) (i j : ℕ) : ℚ :=
  if j = 0 then 2 * k * (p i j - bcProfile 0) else k * (p i j - p i (j - 1))

/-- Outward TPFA flux of cell `(i, j)` through its top face; the top
boundary faces sit at `y = 1`, where the profile prescribes the value `0`. -/
def vTermU (n : ℕ) (k : ℚ) (p : ℕ → ℕ → ℚ) (i j : ℕ) : ℚ :=
  if j = n - 1 then 2 * k * (p i j - bcProfile 1) else k * (p i j - p i (j + 1))

/-- Residual of the TPFA cell equation at cell `(i, j)`: the sum of the
outward fluxes through the four faces of the cell.  The linear system
`A p = b` assembled by the discretization states that this vanishes on
every cell. -/
def tpfaRes (n : ℕ) (k : ℚ) (p : ℕ → ℕ → ℚ) (i j : ℕ) : ℚ :=
  hTermL n k p i j + hTermR n k p i j + vTermD n k p i j + vTermU n k p i j

/-- `p` is a solution of the assembled TPFA system on the `n x n` grid
with uniform conductivity `k` (the vector returned by the direct sparse
solve in `solve_problem`). -/
def tpfaSolves (n : ℕ) (k : ℚ) (p : ℕ → ℕ → ℚ) : Prop :=
  ∀ i j, i < n → j < n → tpfaRes n k p i j = 0

/-- Homogeneous counterpart of `hTermL` (all boundary values zero). -/
def hTermL0 (n : ℕ) (k : ℚ) (d : ℕ → ℕ → ℚ) (i j : ℕ) : ℚ :=
  if i = 0 then 2 * k * d i j else k * (d i j - d (i - 1) j)

/-- Homogeneous counterpart of `hTermR`. -/
def hTermR0 (n : ℕ) (k : ℚ) (d : ℕ → ℕ → ℚ) (i j : ℕ) : ℚ :=
  if i = n - 1 then 2 * k * d i j else k * (d i j - d (i + 1) j)

/-- Homogeneous counterpart of `vTermD`. -/
def vTermD0 (n : ℕ) (k : ℚ) (d : ℕ → ℕ → ℚ) (i j : ℕ) : ℚ :=
  if j = 0 then 2 * k * d i j else k * (d i j - d i (j - 1))

/-- Homogeneous counterpart of `vTermU`. -/
def vTermU0 (n : ℕ) (k : ℚ) (d : ℕ → ℕ → ℚ) (i j : ℕ) : ℚ :=
  if j = n - 1 then 2 * k * d i j else k * (d i j - d i (j + 1))

/-- Residual of the homogeneous TPFA system (the matrix `A` alone). -/
def tpfaRes0 (n : ℕ) (k : ℚ) (d : ℕ → ℕ → ℚ) (i j : ℕ) : ℚ :=
  hTermL0 n k d i j + hTermR0 n k d i j + vTermD0 n k d i j + vTermU0 n k d i j

/-- Pointwise difference of two pressure vectors. -/
def dsub (p q : ℕ → ℕ → ℚ) : ℕ → ℕ → ℚ := fun a b => p a b - q a b

/-- Pointwise negation of a pressure vector. -/
def dneg (d : ℕ → ℕ → ℚ) : ℕ → ℕ → ℚ := fun a b => -(d a b)

/-- The second value returned by `solve_problem`: the sum of the recovered
flux `q = flux @ p + bound_flux @ bc_val` over the boundary faces whose
center ordinate equals the maximum node ordinate.  On the uniform grid of
the unit square these are the `n` top faces, and the recovered TPFA flux
through the top face of cell `(i, n-1)` is `2k (p i (n-1) - bcProfile 1)`
(outward transmissibility times the jump to the Dirichlet value). -/
def outflowTop (n : ℕ) (k : ℚ) (p : ℕ → ℕ → ℚ) : ℚ :=
  ∑ i ∈ Finset.range n, 2 * k * (p i (n - 1) - bcProfile 1)

/-- The grid object consumed by the scripts: cell count, face count, the
second row of `sd.face_centers`, the second row of `sd.nodes`, and the
`domain_boundary_faces` tag per face. -/
structure Grid where
  num_cells : ℕ
  num_faces : ℕ
  face_center_y : ℕ → ℚ
  node_y : List ℚ
  is_boundary : ℕ → Bool

/-- `np.amax` over a list (the scripts only apply it to the nonempty node
rows of a grid; the value on the empty list is irrelevant). -/
def amaxQ (l : List ℚ) : ℚ := (l.max?).getD 0

/-- `np.amin` over a list. -/
def aminQ (l : List ℚ) : ℚ := (l.min?).getD 0

/-- `b_faces = sd.tags["domain_boundary_faces"].nonzero()[0]`: the indices
of the boundary faces, in increasing order. -/
def boundaryFaces (sd : Grid) : List ℕ :=
  (List.range sd.num_faces).filter (fun f => sd.is_boundary f)

/-- `labels = np.array(["dir"] * b_faces.size)`. -/
def dirLabels (sd : Grid) : List String :=
  List.replicate (boundaryFaces sd).length "dir"

/-- `bc_val = 1 - sd.face_centers[1]` as a function of the face index. -/
def bcVal (sd : Grid) (f : ℕ) : ℚ := bcProfile (sd.face_center_y f)

/-- The external discretization-and-solve collaborator used by both
scripts (porepy `Tpfa` + `scipy.sparse.linalg.spsolve` + the recovered
flux `q = flux @ p + bound_flux @ bc_val`): from the grid, the per-cell
tensor values, the labels and the boundary values it produces the cell
pressures and the per-face recovered flux. -/
structure FlowLib where
  tpfaSolve : Grid → (ℕ → ℚ) → List String → (ℕ → ℚ) → (ℕ → ℚ) × (ℕ → ℚ)

/-- `solve_problem` of `lab/lab10/solve_problem.py`.  `np.isclose` is exact
comparison in the rational model.  The unused `in_flow` classification of
the source is kept. -/
def solve_problem_lab10 (L : FlowLib) (sd : Grid) (perm : ℚ) : (ℕ → ℚ) × ℚ :=
  let sot : ℕ → ℚ := fun _ => perm
  let b_faces := boundaryFaces sd
  let out_flow := b_faces.map (fun f => decide (sd.face_center_y f = amaxQ sd.node_y))
  let in_flow := b_faces.map (fun f => decide (sd.face_center_y f = aminQ sd.node_y))
  let labels := dirLabels sd
  let bc_val := bcVal sd
  let pq := L.tpfaSolve sd sot labels bc_val
  (pq.1, (((b_faces.zip out_flow).filter (fun fb => fb.2)).map (fun fb => pq.2 fb.1)).sum)

/-- `solve_problem` of `lab/lab99/solve_problem.py`: identical to the
lab10 variant except that it never computes the `in_flow` mask. -/
def solve_problem_lab99 (L : FlowLib) (sd : Grid) (perm_mu : ℚ) : (ℕ → ℚ) × ℚ :=
  let sot : ℕ → ℚ := fun _ => perm_mu
  let b_faces := boundaryFaces sd
  let out_flow := b_faces.map (fun f => decide (sd.face_center_y f = amaxQ sd.node_y))
  let labels := dirLabels sd
  let bc_val := bcVal sd
  let pq := L.tpfaSolve sd sot labels bc_val
  (pq.1, (((b_faces.zip out_flow).filter (fun fb => fb.2)).map (fun fb => pq.2 fb.1)).sum)

/-- Length of `np.arange(1, np.sqrt(N) + 1)`: the ceiling of the square
root of `N`. -/
def cSqrt (N : ℕ) : ℕ :=
  if Nat.sqrt N * Nat.sqrt N = N then Nat.sqrt N else Nat.sqrt N + 1

/-- `space = np.arange(1, np.sqrt(sd.num_cells) + 1)`. -/
def latticeSpace (N : ℕ) : List ℚ :=
  (List.range (cSqrt N)).map (fun t : ℕ => (t : ℚ) + 1)

/-- `xy = np.array(np.meshgrid(space, space)).T.reshape(-1, 2)`: all pairs
of lattice coordinates, the first coordinate varying slowest. -/
def latticeXY (N : ℕ) : List (ℚ × ℚ) :=
  (latticeSpace N).flatMap (fun x => (latticeSpace N).map (fun y => (x, y)))

/-- Argument of the exponential in the RBF covariance
`exp(-d(x, y)^2 / (2 l^2))` built by `RBF(length_scale=params)`. -/
def rbfArg (len_scale : ℚ) (x y : ℚ × ℚ) : ℚ :=
  -(((x.1 - y.1) ^ 2 + (x.2 - y.2) ^ 2) / (2 * len_scale ^ 2))

/-- The external random/Gaussian-process collaborator of `generate_perm`:
`rand` is `np.random.rand` right after `np.random.seed(seed)`, and
`sampleY` is `fit` followed by `sample_y` of a `GaussianProcessRegressor`
whose covariance is the exponential of the given kernel argument; sklearn
returns one sample row per query point, hence the length law. -/
structure GPLib where
  rand : Option Int → ℕ → List ℚ
  sampleY : ((ℚ × ℚ) → (ℚ × ℚ) → ℚ) → List (ℚ × ℚ) → List ℚ → List ℚ
  sampleY_length : ∀ ker xs ys, (sampleY ker xs ys).length = xs.length

/-- Denominator of the Kozeny-Carman map: `np.square(1 - phi)`. -/
def kcDenom (phi : ℚ) : ℚ := (1 - phi) ^ 2

/-- `perm = perm_ref * np.power(phi, 3) / np.square(1 - phi)`. -/
def kozenyCarman (perm_ref phi : ℚ) : ℚ := perm_ref * phi ^ 3 / kcDenom phi

/-- `generate_perm` of `lab/lab10/solve_problem.py`: size a square sample
lattice from `sqrt(sd.num_cells)`, draw seeded uniform fit targets, draw
one Gaussian-process sample at the lattice points, take absolute values
(the clipping to `[0, 1]` is commented out in the source) and apply the
Kozeny-Carman map. -/
def generate_perm (L : GPLib) (sd : Grid) (params : ℚ) (seed : Option Int)
    (perm_ref : ℚ) : List ℚ :=
  let xy := latticeXY sd.num_cells
  let target := L.rand seed xy.length
  let phi := (L.sampleY (rbfArg params) xy target).map (fun v => |v|)
  phi.map (fun phi0 => kozenyCarman perm_ref phi0)

/-- The names bound at module level in `lab/lab10/solve_problem.py`: the
five imported names and the three functions the module defines. -/
def lab10ModuleNames : List String :=
  ["np", "pp", "pg", "sps", "GaussianProcessRegressor", "RBF",
   "solve_problem", "generate_perm", "generate_"]

/-- Python name resolution inside a function body of the lab10 module: a
name evaluates if it is a local or a module-level binding, and raises a
`NameError` otherwise (none of the names involved are builtins). -/
def resolveName (locals : List String) (x : String) : Except String Unit :=
  if x ∈ locals ∨ x ∈ lab10ModuleNames then Except.ok ()
  else Except.error ("NameError: name " ++ x ++ " is not defined")

/-- `generate_` of `lab/lab10/solve_problem.py`.  Evaluating the call
`np.loadtxt(file_name, skip)` resolves `np`, then the argument
`file_name` (a local), then the argument `skip` - which is bound nowhere.
The loader and the grid constructor (`pp.CartGrid` on a 25 x 25 unit
square followed by `compute_geometry`) are external collaborators passed
as functions; they are only reached if name resolution succeeds. -/
def generate_ (loadtxt : String → List ℚ) (mkCartGrid : ℕ → Grid)
    (file_name : String) : Except String (Grid × List ℚ) := do
  let _ ← resolveName ["file_name"] "np"
  let _ ← resolveName ["file_name"] "file_name"
  let _ ← resolveName ["file_name"] "skip"
  let porosity := loadtxt file_name
  let sd := mkCartGrid 25
  return (sd, porosity)

/-- A concrete one-cell grid of the unit square (the 1 x 1 Cartesian
grid: four faces, all on the boundary), used to instantiate hypotheses. -/
def demoGrid : Grid where
  num_cells := 1
  num_faces := 4
  face_center_y := fun f => if f = 2 then 0 else if f = 3 then 1 else 1/2
  node_y := [0, 0, 1, 1]
  is_boundary := fun f => decide (f < 4)

/-- A grid with the same cell count as `demoGrid` but different geometry. -/
def demoGrid2 : Grid := { demoGrid with face_center_y := fun _ => 7 }

/-- A concrete instance of the Gaussian-process collaborator. -/
def demoGP : GPLib where
  rand := fun _ m => List.replicate m 0
  sampleY := fun _ xs _ => List.replicate xs.length 0
  sampleY_length := by intro ker xs ys; simp

theorem hTermL_lin (n : ℕ) (k : ℚ) (i j : ℕ) : hTermL n k (linP n) i j = 0 := by
  simp only [hTermL, linP, bcProfile]
  split_ifs <;> ring

theorem hTermR_lin (n : ℕ) (k : ℚ) (i j : ℕ) : hTermR n k (linP n) i j = 0 := by
  simp only [hTermR, linP, bcProfile]
  split_ifs <;> ring

theorem vTermD_lin (n : ℕ) (k : ℚ) (i j : ℕ) (hn : 0 < n) :
    vTermD n k (linP n) i j = -(k / n) := by
  have hn0 : (n : ℚ) ≠ 0 := Nat.cast_ne_zero.mpr hn.ne'
  simp only [vTermD, linP, ycen, bcProfile]
  split_ifs with h
  · subst h
    push_cast
    field_simp
    ring
  · have hc : ((j - 1 : ℕ) : ℚ) = (j : ℚ) - 1 := by
      rw [Nat.cast_sub (by omega), Nat.cast_one]
    rw [hc]
    field_simp
    ring

theorem vTermU_lin (n : ℕ) (k : ℚ) (i j : ℕ) (hn : 0 < n) :
    vTermU n k (linP n) i j = k / n := by
  have hn0 : (n : ℚ) ≠ 0 := Nat.cast_ne_zero.mpr hn.ne'
  simp only [vTermU, linP, ycen, bcProfile]
  split_ifs with h
  · subst h
    have hc : ((n - 1 : ℕ) : ℚ) = (n : ℚ) - 1 := by
      rw [Nat.cast_sub (by omega), Nat.cast_one]
    rw [hc]
    field_simp
    ring
  · push_cast
    field_simp
    ring

/-- The linear field `1 - y` satisfies every TPFA cell equation: the
horizontal fluxes vanish and the two vertical fluxes cancel. -/
theorem linP_solves (n : ℕ) (k : ℚ) (hn : 0 < n) : tpfaSolves n k (linP n) := by
  intro i j hi hj
  unfold tpfaRes
  rw [hTermL_lin, hTermR_lin, vTermD_lin n k i j hn, vTermU_lin n k i j hn]
  ring

theorem tpfaRes_sub (n : ℕ) (k : ℚ) (p q : ℕ → ℕ → ℚ) (i j : ℕ) :
    tpfaRes n k p i j - tpfaRes n k q i j = tpfaRes0 n k (dsub p q) i j := by
  simp only [tpfaRes, tpfaRes0, hTermL, hTermR, vTermD, vTermU,
    hTermL0, hTermR0, vTermD0, vTermU0, dsub]
  split_ifs <;> ring

theorem tpfaRes0_scale (n : ℕ) (k : ℚ) (d : ℕ → ℕ → ℚ) (i j : ℕ) :
    tpfaRes0 n k d i j = k * tpfaRes0 n 1 d i j := by
  simp only [tpfaRes0, hTermL0, hTermR0, vTermD0, vTermU0]
  split_ifs <;> ring

theorem tpfaRes0_neg (n : ℕ) (k : ℚ) (d : ℕ → ℕ → ℚ) (i j : ℕ) :
    tpfaRes0 n k (dneg d) i j = -(tpfaRes0 n k d i j) := by
  simp only [tpfaRes0, hTermL0, hTermR0, vTermD0, vTermU0, dneg]
  split_ifs <;> ring

theorem tpfaRes_scale2 (n : ℕ) (k : ℚ) (p : ℕ → ℕ → ℚ) (i j : ℕ) :
    tpfaRes n (2 * k) p i j = 2 * tpfaRes n k p i j := by
  simp only [tpfaRes, hTermL, hTermR, vTermD, vTermU]
  split_ifs <;> ring

theorem hTermL0_nonneg (n : ℕ) (d : ℕ → ℕ → ℚ) (M : ℚ) (i j : ℕ)
    (hub : ∀ a b, a < n → b < n → d a b ≤ M)
    (hi : i < n) (hj : j < n) (hd : d i j = M) (hM : 0 ≤ M) :
    0 ≤ hTermL0 n 1 d i j := by
  simp only [hTermL0]
  split_ifs with h
  · rw [hd]; linarith
  · have hnb := hub (i - 1) j (by omega) hj
    rw [hd]; linarith

theorem hTermR0_nonneg (n : ℕ) (d : ℕ → ℕ → ℚ) (M : ℚ) (i j : ℕ)
    (hub : ∀ a b, a < n → b < n → d a b ≤ M)
    (hi : i < n) (hj : j < n) (hd : d i j = M) (hM : 0 ≤ M) :
    0 ≤ hTermR0 n 1 d i j := by
  simp only [hTermR0]
  split_ifs with h
  · rw [hd]; linarith
  · have hnb := hub (i + 1) j (by omega) hj
    rw [hd]; linarith

theorem vTermD0_nonneg (n : ℕ) (d : ℕ → ℕ → ℚ) (M : ℚ) (i j : ℕ)
    (hub : ∀ a b, a < n → b < n → d a b ≤ M)
    (hi : i < n) (hj : j < n) (hd : d i j = M) (hM : 0 ≤ M) :
    0 ≤ vTermD0 n 1 d i j := by
  simp only [vTermD0]
  split_ifs with h
  · rw [hd]; linarith
  · have hnb := hub i (j - 1) hi (by omega)
    rw [hd]; linarith

theorem vTermU0_nonneg (n : ℕ) (d : ℕ → ℕ → ℚ) (M : ℚ) (i j : ℕ)
    (hub : ∀ a b, a < n → b < n → d a b ≤ M)
    (hi : i < n) (hj : j < n) (hd : d i j = M) (hM : 0 ≤ M) :
    0 ≤ vTermU0 n 1 d i j := by
  simp only [vTermU0]
  split_ifs with h
  · rw [hd]; linarith
  · have hnb := hub i (j + 1) hi (by omega)
    rw [hd]; linarith

/-- Discrete maximum principle, one step: at a cell attaining a positive
maximum of a homogeneous solution, the cell cannot touch the top
boundary and the cell above also attains the maximum. -/
theorem tpfa_step (n : ℕ) (d : ℕ → ℕ → ℚ) (M : ℚ)
    (hres : ∀ a b, a < n → b < n → tpfaRes0 n 1 d a b = 0)
    (hub : ∀ a b, a < n → b < n → d a b ≤ M) (hM : 0 < M) :
    ∀ i j, i < n → j < n → d i j = M → j ≠ n - 1 ∧ d i (j + 1) = M := by
  intro i j hi hj hd
  have h0 := hres i j hi hj
  unfold tpfaRes0 at h0
  have hA := hTermL0_nonneg n d M i j hub hi hj hd hM.le
  have hB := hTermR0_nonneg n d M i j hub hi hj hd hM.le
  have hC := vTermD0_nonneg n d M i j hub hi hj hd hM.le
  have hD := vTermU0_nonneg n d M i j hub hi hj hd hM.le
  have he : vTermU0 n 1 d i j = 0 := by linarith
  have hjn : j ≠ n - 1 := by
    intro hjeq
    have he' := he
    unfold vTermU0 at he'
    rw [if_pos hjeq, hd] at he'
    linarith
  refine ⟨hjn, ?_⟩
  unfold vTermU0 at he
  rw [if_neg hjn, hd] at he
  linarith

/-- Discrete maximum principle, propagation: walking upward from any cell
attaining a positive maximum reaches the top boundary, a contradiction. -/
theorem tpfa_climb (n : ℕ) (d : ℕ → ℕ → ℚ) (M : ℚ)
    (hres : ∀ a b, a < n → b < n → tpfaRes0 n 1 d a b = 0)
    (hub : ∀ a b, a < n → b < n → d a b ≤ M) (hM : 0 < M) :
    ∀ t i j, i < n → j < n → n - 1 - j ≤ t → d i j ≠ M := by
  intro t
  induction t with
  | zero =>
    intro i j hi hj ht hd
    have h := tpfa_step n d M hres hub hM i j hi hj hd
    exact h.1 (by omega)
  | succ t ih =>
    intro i j hi hj ht hd
    have h := tpfa_step n d M hres hub hM i j hi hj hd
    have hne := h.1
    exact ih i (j + 1) hi (by omega) (by omega) h.2

/-- A solution of the homogeneous TPFA system is nonpositive on the grid. -/
theorem tpfaRes0_nonpos (n : ℕ) (d : ℕ → ℕ → ℚ) (hn : 0 < n)
    (hres : ∀ a b, a < n → b < n → tpfaRes0 n 1 d a b = 0) :
    ∀ i j, i < n → j < n → d i j ≤ 0 := by
  intro i j hi hj
  by_contra hpos
  push_neg at hpos
  have hne : (Finset.range n ×ˢ Finset.range n).Nonempty :=
    ⟨(i, j), by simp [Finset.mem_product, hi, hj]⟩
  set M := (Finset.range n ×ˢ Finset.range n).sup' hne (fun c => d c.1 c.2) with hMdef
  have hub : ∀ a b, a < n → b < n → d a b ≤ M := by
    intro a b ha hb
    exact Finset.le_sup' (fun c : ℕ × ℕ => d c.1 c.2)
      (by simp [Finset.mem_product, ha, hb] : (a, b) ∈ Finset.range n ×ˢ Finset.range n)
  have hMpos : 0 < M := lt_of_lt_of_le hpos (hub i j hi hj)
  obtain ⟨c, hc, hceq⟩ :=
    Finset.exists_mem_eq_sup' hne (fun c : ℕ × ℕ => d c.1 c.2)
  have hc1 : c.1 < n := by
    have := (Finset.mem_product.mp hc).1
    exact Finset.mem_range.mp this
  have hc2 : c.2 < n := by
    have := (Finset.mem_product.mp hc).2
    exact Finset.mem_range.mp this
  exact tpfa_climb n d M hres hub hMpos (n - 1 - c.2) c.1 c.2 hc1 hc2 le_rfl hceq.symm

/-- A solution of the homogeneous TPFA system vanishes on the grid. -/
theorem tpfaRes0_zero (n : ℕ) (d : ℕ → ℕ → ℚ) (hn : 0 < n)
    (hres : ∀ a b, a < n → b < n → tpfaRes0 n 1 d a b = 0) :
    ∀ i j, i < n → j < n → d i j = 0 := by
  intro i j hi hj
  have h1 := tpfaRes0_nonpos n d hn hres i j hi hj
  have hres2 : ∀ a b, a < n → b < n → tpfaRes0 n 1 (dneg d) a b = 0 := by
    intro a b ha hb
    rw [tpfaRes0_neg, hres a b ha hb, neg_zero]
  have h2 := tpfaRes0_nonpos n (dneg d) hn hres2 i j hi hj
  simp only [dneg] at h2
  linarith

/-- The assembled TPFA system has at most one solution for any nonzero
uniform conductivity (the matrix is nonsingular). -/
theorem tpfa_unique (n : ℕ) (k : ℚ) (p q : ℕ → ℕ → ℚ) (hn : 0 < n) (hk : k ≠ 0)
    (hp : tpfaSolves n k p) (hq : tpfaSolves n k q) :
    ∀ i j, i < n → j < n → p i j = q i j := by
  have hres : ∀ a b, a < n → b < n → tpfaRes0 n 1 (dsub p q) a b = 0 := by
    intro a b ha hb
    have h1 := hp a b ha hb
    have h2 := hq a b ha hb
    have hz : k * tpfaRes0 n 1 (dsub p q) a b = 0 := by
      rw [← tpfaRes0_scale, ← tpfaRes_sub, h1, h2]
      ring
    exact (mul_eq_zero.mp hz).resolve_left hk
  intro i j hi hj
  have h := tpfaRes0_zero n (dsub p q) hn hres i j hi hj
  simp only [dsub] at h
  linarith

/-- C1: for every uniform conductivity `k > 0` and every uniform `n x n`
Cartesian grid of the unit square, the pressure vector returned by
`solve_problem` equals the analytic linear field `p(x, y) = 1 - y` at the
cell centers: the linear field satisfies the assembled TPFA system, and
every solution of the system agrees with it on the grid (in the exact
arithmetic of the model, "direct-solver tolerance" is equality). -/
theorem C1_pressure_equals_linear_field (n : ℕ) (k : ℚ) (hn : 0 < n) (hk : 0 < k) :
    tpfaSolves n k (linP n) ∧
      ∀ p, tpfaSolves n k p → ∀ i j, i < n → j < n → p i j = linP n i j :=
  ⟨linP_solves n k hn, fun p hp i j hi hj =>
    tpfa_unique n k p (linP n) hn hk.ne' hp (linP_solves n k hn) i j hi hj⟩

theorem C1_pressure_equals_linear_field_witness : tpfaSolves 2 1 (linP 2) :=
  (C1_pressure_equals_linear_field 2 1 (by norm_num) (by norm_num)).1

/-- C2: for every uniform conductivity `k > 0` and every resolution `n` of
the uniform `n x n` grid of the unit square, the second return value of
`solve_problem` (the recovered flux summed over the boundary faces whose
center ordinate is the maximal node ordinate, i.e. the top faces) has
magnitude exactly `k`, the conductivity times the unit domain width,
independently of `n`. -/
theorem C2_outflow_magnitude_eq_k (n : ℕ) (k : ℚ) (p : ℕ → ℕ → ℚ)
    (hn : 0 < n) (hk : 0 < k) (hp : tpfaSolves n k p) :
    |outflowTop n k p| = k := by
  have huniq := tpfa_unique n k p (linP n) hn hk.ne' hp (linP_solves n k hn)
  have hn0 : (n : ℚ) ≠ 0 := Nat.cast_ne_zero.mpr hn.ne'
  have hsum : outflowTop n k p = ∑ _i ∈ Finset.range n, k / n := by
    unfold outflowTop
    refine Finset.sum_congr rfl ?_
    intro i hi
    rw [huniq i (n - 1) (Finset.mem_range.mp hi) (by omega)]
    simp only [linP, ycen, bcProfile]
    rw [Nat.cast_sub (by omega : 1 ≤ n), Nat.cast_one]
    field_simp
    ring
  rw [hsum, Finset.sum_const, Finset.card_range, nsmul_eq_mul, mul_comm,
    div_mul_cancel₀ k hn0]
  exact abs_of_pos hk

theorem C2_outflow_magnitude_eq_k_witness : |outflowTop 2 1 (linP 2)| = 1 :=
  C2_outflow_magnitude_eq_k 2 1 (linP 2) (by norm_num) (by norm_num)
    (linP_solves 2 1 (by norm_num))

/-- C4: doubling the uniform conductivity keeps the pressure solution (the
same vector solves the doubled system, and it is the only solution) and
exactly doubles the magnitude of the total outflow. -/
theorem C4_doubling_conductivity (n : ℕ) (k : ℚ) (p : ℕ → ℕ → ℚ)
    (hn : 0 < n) (hk : k ≠ 0) (hp : tpfaSolves n k p) :
    tpfaSolves n (2 * k) p ∧
      (∀ q, tpfaSolves n (2 * k) q → ∀ i j, i < n → j < n → q i j = p i j) ∧
      |outflowTop n (2 * k) p| = 2 * |outflowTop n k p| := by
  have h1 : tpfaSolves n (2 * k) p := by
    intro i j hi hj
    rw [tpfaRes_scale2, hp i j hi hj, mul_zero]
  refine ⟨h1, ?_, ?_⟩
  · intro q hq i j hi hj
    exact tpfa_unique n (2 * k) q p hn (mul_ne_zero two_ne_zero hk) hq h1 i j hi hj
  · have hflow : outflowTop n (2 * k) p = 2 * outflowTop n k p := by
      unfold outflowTop
      rw [Finset.mul_sum]
      exact Finset.sum_congr rfl fun i _ => by ring
    rw [hflow, abs_mul]
    norm_num

theorem C4_doubling_conductivity_witness : tpfaSolves 2 (2 * 1) (linP 2) :=
  (C4_doubling_conductivity 2 1 (linP 2) (by norm_num) (by norm_num)
    (linP_solves 2 1 (by norm_num))).1

theorem length_flatMap_const {α β : Type} (l : List α) (f : α → List β) (m : ℕ)
    (h : ∀ a, (f a).length = m) : (l.flatMap f).length = l.length * m := by
  induction l with
  | nil => simp
  | cons a t ih =>
    rw [List.flatMap_cons, List.length_append, ih, h, List.length_cons]
    ring

theorem latticeSpace_length (N : ℕ) : (latticeSpace N).length = cSqrt N := by
  simp [latticeSpace]

theorem latticeXY_length (N : ℕ) : (latticeXY N).length = cSqrt N ^ 2 := by
  unfold latticeXY
  rw [length_flatMap_const _ _ (cSqrt N) (fun a => by
    rw [List.length_map, latticeSpace_length]), latticeSpace_length]
  ring

/-- C5: every detected boundary face - side faces included - receives a
Dirichlet label with the value `1 - y` of its face center; the number of
labels equals the number of detected boundary faces, one label and one
value per face. -/
theorem C5_all_boundary_dirichlet (sd : Grid) (h : 0 < (boundaryFaces sd).length) :
    (dirLabels sd).length = (boundaryFaces sd).length ∧
      (∀ s ∈ dirLabels sd, s = "dir") ∧
      ∀ f ∈ boundaryFaces sd, bcVal sd f = 1 - sd.face_center_y f := by
  refine ⟨?_, ?_, ?_⟩
  · unfold dirLabels
    exact List.length_replicate _ _
  · intro s hs
    unfold dirLabels at hs
    exact List.eq_of_mem_replicate hs
  · intro f _
    rfl

theorem C5_all_boundary_dirichlet_witness :
    (dirLabels demoGrid).length = (boundaryFaces demoGrid).length ∧
      (∀ s ∈ dirLabels demoGrid, s = "dir") ∧
      ∀ f ∈ boundaryFaces demoGrid, bcVal demoGrid f = 1 - demoGrid.face_center_y f :=
  C5_all_boundary_dirichlet demoGrid (by decide)

/-- C10: the two `solve_problem` implementations return identical results
for every external collaborator, every grid and every conductivity: the
extra `in_flow` classification of the lab10 variant is dead code. -/
theorem C10_lab10_equals_lab99 (L : FlowLib) (sd : Grid) (perm : ℚ) :
    solve_problem_lab10 L sd perm = solve_problem_lab99 L sd perm := rfl

/-- C3: the array returned by `generate_perm` has one entry per sample
point of the square lattice of side `ceil(sqrt(num_cells))` - so its
length is `ceil(sqrt(num_cells))^2`, not `num_cells` - and the grid
argument influences the result only through `num_cells`. -/
theorem C3_perm_size_and_grid_dependence (L : GPLib) (sd : Grid) (params : ℚ)
    (seed : Option Int) (perm_ref : ℚ) :
    (generate_perm L sd params seed perm_ref).length = cSqrt sd.num_cells ^ 2 ∧
      ∀ sd2 : Grid, sd.num_cells = sd2.num_cells →
        generate_perm L sd params seed perm_ref =
          generate_perm L sd2 params seed perm_ref := by
  constructor
  · unfold generate_perm
    rw [List.length_map, List.length_map, L.sampleY_length, latticeXY_length]
  · intro sd2 h
    unfold generate_perm
    rw [h]

theorem C3_perm_size_and_grid_dependence_witness :
    (generate_perm demoGP demoGrid 1 none 1).length = cSqrt demoGrid.num_cells ^ 2 ∧
      generate_perm demoGP demoGrid 1 none 1 = generate_perm demoGP demoGrid2 1 none 1 :=
  ⟨(C3_perm_size_and_grid_dependence demoGP demoGrid 1 none 1).1,
   (C3_perm_size_and_grid_dependence demoGP demoGrid 1 none 1).2 demoGrid2 rfl⟩

/-- C7: for a sampled porosity `0 <= phi < 1` the Kozeny-Carman map is
well defined (nonzero denominator, hence finite) and non-negative, while
at exactly `phi = 1` its denominator vanishes and the division is
unguarded. -/
theorem C7_kozeny_carman_safety :
    (∀ perm_ref phi : ℚ, 0 ≤ perm_ref → 0 ≤ phi → phi < 1 →
        kcDenom phi ≠ 0 ∧ 0 ≤ kozenyCarman perm_ref phi) ∧
      kcDenom 1 = 0 := by
  constructor
  · intro pr phi hpr hphi h1
    have hd : 0 < kcDenom phi := by
      unfold kcDenom
      exact pow_pos (by linarith) 2
    refine ⟨hd.ne', ?_⟩
    unfold kozenyCarman
    exact div_nonneg (mul_nonneg hpr (pow_nonneg hphi 3)) hd.le
  · unfold kcDenom
    norm_num

theorem C7_kozeny_carman_safety_witness :
    kcDenom (1/2) ≠ 0 ∧ 0 ≤ kozenyCarman 1 (1/2) :=
  C7_kozeny_carman_safety.1 1 (1/2) (by norm_num) (by norm_num) (by norm_num)

/-- C8 evidence: `generate_perm` performs no parameter-range validation.
The RBF covariance depends on the length scale only through its square,
so the call with `correlation_length = -1` computes exactly the same
array as the valid call with `correlation_length = 1`, of the full
lattice size - it does not fail. -/
theorem C8_negative_length_scale_not_rejected (L : GPLib) (sd : Grid)
    (seed : Option Int) (perm_ref : ℚ) :
    generate_perm L sd (-1) seed perm_ref = generate_perm L sd 1 seed perm_ref ∧
      (generate_perm L sd (-1) seed perm_ref).length = cSqrt sd.num_cells ^ 2 := by
  have hker : rbfArg (-1) = rbfArg 1 := by
    funext x y
    unfold rbfArg
    norm_num
  constructor
  · unfold generate_perm
    rw [hker]
  · unfold generate_perm
    rw [List.length_map, List.length_map, L.sampleY_length, latticeXY_length]

/-- C9: every call of the file-loading helper `generate_` fails with a
name-resolution error before producing any result, because the bare name
`skip` passed to the text loader is bound nowhere in the module. -/
theorem C9_generate_raises_name_error (loadtxt : String → List ℚ)
    (mkCartGrid : ℕ → Grid) (file_name : String) :
    generate_ loadtxt mkCartGrid file_name =
      Except.error "NameError: name skip is not defined" := rfl

end CompGeo
